import Mathlib

/-!
Verification development for the cBiRRT (Constrained Bidirectional RRT) motion
planner of the `armplanning` package.  The functions `constrainNear`,
`constrainedExtend` (via `extendLoop`), `tryExtend`, `cbirrtIter`, `rrtLoop`,
`rrtBackgroundRunner`, `smoothPath` and `getFrameSteps` below are shallow
embeddings of the Go functions of the same names.  Machine floats are modelled
as rationals, Go maps as association lists whose list order stands for the
(unspecified) Go map iteration order, and the planner's PRNG (`rand.Rand`) as
a stream of naturals.  External collaborators (frame system, constraint
handler, IK solver) and helper code of the repository that is outside the
excerpt (`fixedStepInterpolation`, `extractPath`, `sample`, the linearized
frame system, the neighbor manager) enter as opaque fields of `Env`,
specified only at their interface.  The Go contexts (`ctx`) are modelled as
never cancelled; cancellation branches are not the subject of any theorem
below.
-/

namespace ArmPlan

/-- Configuration: a frame-system input vector (Go `referenceframe.FrameSystemInputs`),
flattened to a list of rationals standing for float64 values. -/
abbrev Config := List ℚ

/-- PRNG (`rand.Rand`): modelled as the stream of values its successive draws return. -/
abbrev Rng := List Nat

/-- Draw from the PRNG (Go `randseed.Int()`), returning the value and the advanced state. -/
def rngInt (r : Rng) : Nat × Rng := (r.headD 0, r.tail)

/-- Bounded draw (Go `randseed.Intn(n)`). -/
def rngIntn (r : Rng) (n : Nat) : Nat × Rng := (r.headD 0 % n, r.tail)

/-- Tree node (Go `node` / `basicNode`).  Nodes are referentially identified in Go;
the `nid` field is the reference identity.  The mutable Corner flag is kept in a
separate `CSet` (set of node ids), mirroring that only the flag is ever mutated. -/
structure Node where
  q : Config
  nid : Nat
deriving DecidableEq, Repr

/-- Default node used for total list indexing (never observed on in-range indices). -/
def dnode : Node := ⟨[], 0⟩

/-- Corner-flag state: the set of node ids whose Corner flag is true. -/
abbrev CSet := List Nat

/-- Read a node's Corner flag (Go `n.Corner()`). -/
def getC (c : CSet) (n : Nat) : Bool := c.contains n

/-- Set a node's Corner flag to true (Go `n.SetCorner(true)`). -/
def addC (c : CSet) (n : Nat) : CSet := if c.contains n then c else n :: c

/-- Set a node's Corner flag to false (Go `n.SetCorner(false)`). -/
def eraseC (c : CSet) (n : Nat) : CSet := c.filter (fun m => m != n)

/-- RRT tree (Go `map[node]node`): association list from child node to parent
(`none` for a root).  The list order models the Go map iteration order. -/
abbrev Tree := List (Node × Option Node)

/-- Go map lookup `tree[n]`: `none` when the key is absent. -/
def lookupTree (tree : Tree) (n : Node) : Option (Option Node) :=
  (tree.find? fun p => decide (p.1 = n)).map (fun p => p.2)

/-- Per-frame step bound (Go `map[string][]float64`, the `qstep` shape). -/
abbrev Qstep := List (String × List ℚ)

/-- Double every entry of a qstep map (Go loop `qstep[f][i] = q * 2.0`). -/
def doubleQ (qs : Qstep) : Qstep := qs.map (fun p => (p.1, p.2.map (fun q => q * 2)))

/-- Planner environment: options plus the external collaborators the planner
consumes.  Fields `distance`, `checkSegment`, `solve`, `interpolate` are the
interfaces of §6 of the specification; `mapToSlice`/`sliceToMap` are the
linearized frame system, `fixedStep` is `fixedStepInterpolation`, `nearest`
the neighbor manager, `extractPath` and `sample` the planner helpers — all
repository code outside the excerpt, entering here as opaque interface
functions per their specified contracts. -/
structure Env where
  /-- Option `InputIdentDist`. -/
  inputIdentDist : ℚ
  /-- Option `Resolution`. -/
  resolution : ℚ
  /-- Option `SmoothIter`. -/
  smoothIter : Nat
  /-- Derived option `algOpts.qstep`. -/
  qstep : Qstep
  /-- Go `mp.configurationDistanceFunc` on a start/end configuration pair. -/
  distance : Config → Config → ℚ
  /-- Go `mp.CheckSegmentAndStateValidityFS(segment, resolution)`: ok flag and
  optional first failing sub-segment (start, end). -/
  checkSegment : Config → Config → ℚ → Bool × Option (Config × Config)
  /-- Go `mp.lfs.mapToSlice`: flatten a configuration, `none` on failure. -/
  mapToSlice : Config → Option (List ℚ)
  /-- Go `mp.fastGradDescent.Solve` with the path metric: at most one solution
  for a linear seed and a random int; `none` covers both solver error and no
  solution. -/
  solve : List ℚ → Nat → Option (List ℚ)
  /-- Go `mp.lfs.sliceToMap`: unflatten, `none` on failure. -/
  sliceToMap : List ℚ → Option Config
  /-- Go `fixedStepInterpolation(near, target, qstep)`. -/
  fixedStep : Config → Config → Qstep → Config
  /-- Go `referenceframe.InterpolateFS(fs, from, to, t)`, `none` on failure. -/
  interpolate : Config → Config → ℚ → Option Config
  /-- Go `neighborManager.nearestNeighbor(ctx, target, tree, dist)`. -/
  nearest : Tree → Config → Node
  /-- Go `rand.New(rand.NewSource(int64(seed)))`: child PRNG from a drawn seed. -/
  mkRng : Nat → Rng
  /-- Go `extractPath(startMap, goalMap, pair, true)`. -/
  extractPath : Tree → Tree → Node → Node → List Node
  /-- Go `mp.sample(node, iter)`: next target configuration or failure. -/
  sample : Node → Nat → Rng → Option Config × Rng

/-- Go constant `maxNearIter`. -/
def maxNearIter : Nat := 20

/-- Go constant `maxExtendIter`. -/
def maxExtendIter : Nat := 5000

/-- Embedding of `cBiRRTMotionPlanner.constrainNear` (part_000 lines 339-412).
Iterates at most `fuel` (= `maxNearIter`) times: return `target` if the direct
segment from `seedInputs` is valid; otherwise run the IK solver from the
linearized target with a fresh random draw; return its solution if the segment
from `seedInputs` to it is valid; on a failing sub-segment whose end is farther
than `InputIdentDist` from `target`, continue with `seedInputs := failpos.start`,
`target := failpos.end`; on a near one, continue with them unchanged; return
`none` on solver/linearization failure or fuel exhaustion. -/
def constrainNear (env : Env) : Nat → Rng → Config → Config → Option Config × Rng
  | 0, rng, _, _ => (none, rng)
  | fuel+1, rng, seedInputs, target =>
    if (env.checkSegment seedInputs target env.resolution).1 then (some target, rng)
    else
      match env.mapToSlice target with
      | none => (none, rng)
      | some linearSeed =>
        match env.solve linearSeed (rngInt rng).1 with
        | none => (none, (rngInt rng).2)
        | some sol =>
          match env.sliceToMap sol with
          | none => (none, (rngInt rng).2)
          | some solutionMap =>
            match env.checkSegment seedInputs solutionMap env.resolution with
            | (true, _) => (some solutionMap, (rngInt rng).2)
            | (false, some fp) =>
              if env.distance target fp.2 > env.inputIdentDist then
                constrainNear env fuel (rngInt rng).2 fp.1 fp.2
              else
                constrainNear env fuel (rngInt rng).2 seedInputs target
            | (false, none) => (none, (rngInt rng).2)

/-- Loop body of `cBiRRTMotionPlanner.constrainedExtend` (part_000 lines 245-334),
with the iteration bound as explicit fuel.  State: child PRNG, local qstep copy
`qs`, the one-shot `doubled` flag, the tree, `oldNear`, `near`, the target
configuration, and the next fresh node id.  Returns the emitted node (Go
`mchan <- ...`), the tree, the PRNG and the next id.  Note the step
`env.fixedStep near.q target env.qstep` reads `mp.algOpts.qstep` exactly as
source line 296 does — not the local copy `qs`. -/
def extendLoop (env : Env) : Nat → Rng → Qstep → Bool → Tree → Node → Node → Config → Nat →
    Node × Tree × Rng × Nat
  | 0, rng, _, _, tree, oldNear, _, _, nid => (oldNear, tree, rng, nid)
  | fuel+1, rng, qs, db, tree, oldNear, near, target, nid =>
    if env.distance near.q target < env.inputIdentDist then (near, tree, rng, nid)
    else if env.distance near.q target > env.distance oldNear.q target then
      (oldNear, tree, rng, nid)
    else
      match constrainNear env maxNearIter rng near.q (env.fixedStep near.q target env.qstep) with
      | (some p, rng2) =>
        if env.distance near.q p < env.inputIdentDist ^ 3 then
          if db then (near, tree, rng2, nid)
          else extendLoop env fuel rng2 (doubleQ qs) true tree near near target nid
        else
          extendLoop env fuel rng2 (if db then env.qstep else qs) false
            ((⟨p, nid⟩, some near) :: tree) near ⟨p, nid⟩ target (nid + 1)
      | (none, rng2) => (near, tree, rng2, nid)

/-- Embedding of `cBiRRTMotionPlanner.constrainedExtend`: the loop started with
a fresh deep copy of `algOpts.qstep`, the `doubled` flag down, and
`oldNear = near`, for `maxExtendIter` iterations. -/
def constrainedExtend (env : Env) (rng : Rng) (tree : Tree) (near : Node) (target : Config)
    (nid : Nat) : Node × Tree × Rng × Nat :=
  extendLoop env maxExtendIter rng env.qstep false tree near near target nid

/-- One DOF limit (Go `referenceframe.Limit`): `none` in `min` stands for
`-Inf`, `none` in `max` for `+Inf`. -/
structure Limit where
  min : Option ℚ
  max : Option ℚ
deriving DecidableEq, Repr

/-- One frame of the linearized frame system: its name and DOF limits. -/
structure Frame where
  name : String
  dof : List Limit
deriving DecidableEq, Repr

/-- The part of `linearizedFrameSystem` that `getFrameSteps` reads. -/
structure LFS where
  frames : List Frame
deriving DecidableEq, Repr

/-- Embedding of `getFrameSteps` (part_000 lines 485-507): per frame and DOF,
clamp an infinite lower limit to -999 and an infinite upper limit to 999, then
take `|u - l| * percentTotalMovement`. -/
def getFrameSteps (lfs : LFS) (percentTotalMovement : ℚ) : Qstep :=
  lfs.frames.map fun f =>
    (f.name, f.dof.map fun lim =>
      |lim.max.getD 999 - lim.min.getD (-999)| * percentTotalMovement)

/-- State of the outer loop of `rrtBackgroundRunner`.  `swapped` records which
of the start/goal trees currently plays the role of `map1` (the Go aliases at
line 135 and the swap at line 238). -/
structure IterState where
  startMap : Tree
  goalMap : Tree
  swapped : Bool
  target : Config
  rng : Rng
  nid : Nat
  cor : CSet
deriving DecidableEq, Repr

/-- Embedding of the `tryExtend` closure (part_000 lines 154-189): find the
nearest node of each tree, draw the two child PRNG seeds from the master PRNG
in fixed order, run `constrainedExtend` on each tree, and mark both reached
nodes as corners.  The two Go extends run concurrently on disjoint trees; the
embedding sequences them (the only interaction, fresh node ids, is an artifact
of the embedding). -/
def tryExtend (env : Env) (st : IterState) (target : Config) : Node × Node × IterState :=
  let map1 := if st.swapped then st.goalMap else st.startMap
  let map2 := if st.swapped then st.startMap else st.goalMap
  let nearest1 := env.nearest map1 target
  let nearest2 := env.nearest map2 target
  let e1 := constrainedExtend env (env.mkRng (rngInt st.rng).1) map1 nearest1 target st.nid
  let e2 := constrainedExtend env (env.mkRng (rngInt (rngInt st.rng).2).1) map2 nearest2 target
    e1.2.2.2
  (e1.1, e2.1,
    { startMap := if st.swapped then e2.2.1 else e1.2.1
      goalMap := if st.swapped then e1.2.1 else e2.2.1
      swapped := st.swapped
      target := st.target
      rng := (rngInt (rngInt st.rng).2).2
      nid := e2.2.2.2
      cor := addC (addC st.cor e1.1.nid) e2.1.nid })

/-- Planner failure kinds surfaced through `rrtSolution.err`. -/
inductive PErr where
  | plannerFailed
  | interpFailed
  | sampleFailed
deriving DecidableEq, Repr

/-- Outcome of one outer-loop iteration: a solution, an error, or continue. -/
inductive IterOut where
  | solved (path : List Node) (st : IterState)
  | failed (e : PErr) (st : IterState)
  | next (st : IterState)
deriving DecidableEq, Repr

/-- Embedding of `rrtSolution` as received on `solutionChan`, together with the
maps (`rrt.maps`) it carries. -/
structure RrtSol where
  steps : Option (List Node)
  err : Option PErr
  startMap : Tree
  goalMap : Tree
deriving DecidableEq, Repr

/-- Embedding of part_000 lines 223-238: the single connection check of an
outer iteration.  If the reached delta is within `InputIdentDist`, extract the
path from the two trees and solve; otherwise sample the next target near the
first reached node and swap the two trees' roles. -/
def connectOrContinue (env : Env) (i : Nat) (st : IterState) (r1 r2 : Node) (delta : ℚ) :
    IterOut :=
  if delta ≤ env.inputIdentDist then
    .solved (env.extractPath st.startMap st.goalMap r1 r2) st
  else
    match env.sample r1 i st.rng with
    | (none, rng) => .failed .sampleFailed { st with rng := rng }
    | (some t, rng) => .next { st with target := t, rng := rng, swapped := !st.swapped }

/-- Embedding of one iteration of the outer loop of `rrtBackgroundRunner`
(part_000 lines 191-238): a first dual extend toward the current target; if
the reached delta exceeds `InputIdentDist`, a second dual extend toward the
halfway interpolation of the two reached configurations (failing if the
interpolation fails); then the connection check. -/
def cbirrtIter (env : Env) (i : Nat) (st : IterState) : IterOut :=
  let a := tryExtend env st st.target
  if env.distance a.1.q a.2.1.q > env.inputIdentDist then
    match env.interpolate a.1.q a.2.1.q (1/2) with
    | none => .failed .interpFailed a.2.2
    | some tc =>
      let b := tryExtend env a.2.2 tc
      connectOrContinue env i b.2.2 b.1 b.2.1 (env.distance b.1.q b.2.1.q)
  else
    connectOrContinue env i a.2.2 a.1 a.2.1 (env.distance a.1.q a.2.1.q)

/-- Embedding of the outer loop of `rrtBackgroundRunner` (part_000 lines
142-241): run `cbirrtIter` until a solution or error, or until the `PlanIter`
budget (the fuel) is exhausted, in which case `errPlannerFailed` is sent
together with the final trees (line 240). -/
def rrtLoop (env : Env) : Nat → Nat → IterState → RrtSol
  | _, 0, st => ⟨none, some .plannerFailed, st.startMap, st.goalMap⟩
  | i, fuel+1, st =>
    match cbirrtIter env i st with
    | .solved path st2 => ⟨some path, none, st2.startMap, st2.goalMap⟩
    | .failed e st2 => ⟨none, some e, st2.startMap, st2.goalMap⟩
    | .next st2 => rrtLoop env (i+1) fuel st2

/-- Trace helper: the final loop state when every one of `fuel` iterations
returns `.next` (the "never connects, never errors" runs), `none` otherwise. -/
def runsToEnd (env : Env) : Nat → Nat → IterState → Option IterState
  | _, 0, st => some st
  | i, fuel+1, st =>
    match cbirrtIter env i st with
    | .next st2 => runsToEnd env (i+1) fuel st2
    | _ => none

/-- Embedding of part_000 lines 114-121: scan the start map in iteration order
and take the configuration of the first root (parent `nil`) as the seed for
the initial interpolated target. -/
def pickSeed (startMap : Tree) : Config :=
  (((startMap.find? fun p => p.2.isNone).map (fun p => p.1.q))).getD []

/-- Embedding of `rrtBackgroundRunner` (part_000 lines 94-241) after map
initialization: pick the seed root, interpolate halfway to the goal
representative `optNode`, and run the outer loop for `planIter` iterations. -/
def rrtBackgroundRunner (env : Env) (planIter : Nat) (startMap goalMap : Tree)
    (optNode : Node) (rng : Rng) (nid : Nat) (cor : CSet) : RrtSol :=
  match env.interpolate (pickSeed startMap) optNode.q (1/2) with
  | none => ⟨none, some .interpFailed, startMap, goalMap⟩
  | some ic =>
    rrtLoop env 0 planIter
      { startMap := startMap, goalMap := goalMap, swapped := false,
        target := ic, rng := rng, nid := nid, cor := cor }

/-- State of the path smoother: the current path, the corner flags, the master
PRNG (which `smoothPath` passes directly to `constrainedExtend`), and the next
fresh node id. -/
structure SmState where
  steps : List Node
  cor : CSet
  rng : Rng
  nid : Nat
deriving DecidableEq, Repr

/-- Embedding of the corner walk of `smoothPath` (part_000 lines 433-441):
advance `j` until `numCornersToPass` corners have been passed and `steps[j]`
is itself a corner, or until the last index; collect the corners passed. -/
def walkJ (cor : CSet) (steps : List Node) (ncp : Nat) :
    Nat → Nat → Nat → List Node → Nat × List Node
  | 0, j, _, hits => (j, hits)
  | fuel+1, j, cp, hits =>
    if (cp ≠ ncp ∨ getC cor (steps.getD j dnode).nid = false) ∧ j < steps.length - 1 then
      if cp < ncp ∧ getC cor (steps.getD (j+1) dnode).nid = true then
        walkJ cor steps ncp fuel (j+1) (cp+1) (hits ++ [steps.getD (j+1) dnode])
      else walkJ cor steps ncp fuel (j+1) cp hits
    else (j, hits)

/-- Embedding of the parent-chain walk of the splice (part_000 lines 469-472):
follow parent pointers from `reached` through the shortcut tree until a root
or an absent key.  The fuel (`tree.length + 1` at call sites) only guards the
embedding against a cyclic tree, on which the Go loop would not terminate. -/
def parentChain (tree : Tree) : Nat → Node → List Node
  | 0, _ => []
  | fuel+1, n =>
    match lookupTree tree n with
    | some (some p) => n :: parentChain tree fuel p
    | _ => [n]

/-- Embedding of the splice of a successful shortcut (part_000 lines 463-477):
clear the corner flags of the traversed corners, build
`steps[:i] ++ parentChain(reached)`, set the corner flags of its element at
index `i` and of its last element, then append `steps[j+1:]`. -/
def spliceStep (steps : List Node) (cor : CSet) (i j : Nat) (reached : Node) (tree : Tree)
    (hits : List Node) : List Node × CSet :=
  let cor1 := hits.foldl (fun c n => eraseC c n.nid) cor
  let chain := parentChain tree (tree.length + 1) reached
  let pre := steps.take i ++ chain
  let cor2 := addC cor1 (pre.getD i dnode).nid
  let cor3 := addC cor2 (pre.getLastD dnode).nid
  (pre ++ steps.drop (j+1), cor3)

/-- Embedding of one shortcut attempt of `smoothPath` (part_000 lines 429-477):
draw a random start index `i`, walk `j` past corners, and when corners were
traversed run `constrainedExtend` from `steps[j]` toward `steps[i]` on a
one-node shortcut tree; splice if the reached node is within `InputIdentDist`
of `steps[i]`. -/
def smAttempt (env : Env) (ncp : Nat) (st : SmState) : SmState :=
  let i := (rngIntn st.rng (st.steps.length - 2)).1
  let rng1 := (rngIntn st.rng (st.steps.length - 2)).2
  let w := walkJ st.cor st.steps ncp st.steps.length (i+1) 0 []
  if w.2 = [] then { st with rng := rng1 }
  else
    let iSol := st.steps.getD i dnode
    let jSol := st.steps.getD w.1 dnode
    let e := constrainedExtend env rng1 [(jSol, none)] jSol iSol.q st.nid
    if env.distance iSol.q e.1.q < env.inputIdentDist then
      let sp := spliceStep st.steps st.cor i w.1 e.1 e.2.1 w.2
      { steps := sp.1, cor := sp.2, rng := e.2.2.1, nid := e.2.2.2 }
    else { st with rng := e.2.2.1, nid := e.2.2.2 }

/-- Embedding of the inner attempt loop of `smoothPath` (part_000 line 423):
up to `fuel` (= `toIter/2`) attempts while the path is longer than 3 nodes. -/
def smoothIterLoop (env : Env) (ncp : Nat) : Nat → SmState → SmState
  | 0, st => st
  | fuel+1, st =>
    if st.steps.length > 3 then smoothIterLoop env ncp fuel (smAttempt env ncp st) else st

/-- Embedding of `smoothPath` (part_000 lines 416-481): `toIter` is
`min(len^2, SmoothIter)` computed once; two passes with `numCornersToPass` 2
then 1, each of `toIter/2` attempts. -/
def smoothPath (env : Env) (st : SmState) : SmState :=
  smoothIterLoop env 1 (min (st.steps.length * st.steps.length) env.smoothIter / 2)
    (smoothIterLoop env 2 (min (st.steps.length * st.steps.length) env.smoothIter / 2) st)

/-! Concrete instances used by counterexamples and witnesses. -/

/-- Start node with configuration `[0]` and id 0. -/
def n0 : Node := ⟨[0], 0⟩

/-- Environment exhibiting a `constrainNear` run that re-projects at a failing
sub-segment: the IK solution `[7]` for step target `[5]` fails the segment
check from `[0]` with failing sub-segment `([2], [4])`, whose end is far from
`[5]`; the direct segment from `[2]` to `[4]` is valid, so `constrainNear`
returns `[4]` although the segment from `[0]` to `[4]` is invalid. -/
def envC1 : Env where
  inputIdentDist := 1
  resolution := 1
  smoothIter := 0
  qstep := [("a", [1])]
  distance := fun a b =>
    if a = [0] ∧ b = [10] then 5
    else if a = [5] ∧ b = [4] then 3
    else if a = [0] ∧ b = [4] then 4
    else if a = [4] ∧ b = [10] then 0
    else 5
  checkSegment := fun s t _ =>
    if s = [2] ∧ t = [4] then (true, none)
    else if s = [0] ∧ t = [7] then (false, some ([2], [4]))
    else (false, none)
  mapToSlice := fun c => some c
  solve := fun _ _ => some [7]
  sliceToMap := fun c => some c
  fixedStep := fun _ _ _ => [5]
  interpolate := fun a _ _ => some a
  nearest := fun t _ => (t.headD (dnode, none)).1
  mkRng := fun s => [s]
  extractPath := fun _ _ a b => [a, b]
  sample := fun n _ r => (some n.q, r)

/-- Environment exhibiting the retry branch of `constrainNear`: the first IK
solution `[7]` fails the segment check with failing position `([3], [8])`
whose end `[8]` is within `InputIdentDist` of the target `[5]`; the next loop
iteration redraws and the second IK solution `[9]` passes. -/
def envC3 : Env where
  inputIdentDist := 1
  resolution := 1
  smoothIter := 0
  qstep := [("a", [1])]
  distance := fun a b => if a = [5] ∧ b = [8] then 1 else 5
  checkSegment := fun s t _ =>
    if s = [0] ∧ t = [9] then (true, none)
    else if s = [0] ∧ t = [7] then (false, some ([3], [8]))
    else (false, none)
  mapToSlice := fun c => some c
  solve := fun _ r => if r = 1 then some [7] else some [9]
  sliceToMap := fun c => some c
  fixedStep := fun _ _ _ => [5]
  interpolate := fun a _ _ => some a
  nearest := fun t _ => (t.headD (dnode, none)).1
  mkRng := fun s => [s]
  extractPath := fun _ _ a b => [a, b]
  sample := fun n _ r => (some n.q, r)

/-- Environment exhibiting the stuck-rescue of `constrainedExtend`: gradient
descent always projects the step target `[5]` back to the seed `[0]`, so the
rescue doubles the local qstep copy; the doubled step would be `[8]`, which
the constraint handler accepts and which is not stuck, but line 296 keeps
passing `algOpts.qstep`, so the second iteration repeats `[5]` and the call
gives up. -/
def envC4 : Env where
  inputIdentDist := 1
  resolution := 1
  smoothIter := 0
  qstep := [("a", [1])]
  distance := fun a b => if a = b then 0 else if a = [0] ∧ b = [8] then 3 else 5
  checkSegment := fun s t _ =>
    if s = [0] ∧ t = [0] then (true, none)
    else if s = [0] ∧ t = [8] then (true, none)
    else (false, none)
  mapToSlice := fun c => some c
  solve := fun _ _ => some [0]
  sliceToMap := fun c => some c
  fixedStep := fun _ _ qs => if qs = [("a", [1])] then [5] else [8]
  interpolate := fun a _ _ => some a
  nearest := fun t _ => (t.headD (dnode, none)).1
  mkRng := fun s => [s]
  extractPath := fun _ _ a b => [a, b]
  sample := fun n _ r => (some n.q, r)

/-- Environment for the smoother counterexample: every distance is 0, so any
shortcut extend returns its start node immediately and every splice succeeds. -/
def envC5 : Env where
  inputIdentDist := 1
  resolution := 1
  smoothIter := 2
  qstep := [("a", [1])]
  distance := fun _ _ => 0
  checkSegment := fun _ _ _ => (false, none)
  mapToSlice := fun _ => none
  solve := fun _ _ => none
  sliceToMap := fun c => some c
  fixedStep := fun _ b _ => b
  interpolate := fun a _ _ => some a
  nearest := fun t _ => (t.headD (dnode, none)).1
  mkRng := fun s => [s]
  extractPath := fun _ _ a b => [a, b]
  sample := fun n _ r => (some n.q, r)

/-- Environment in which the two trees never connect: configurations are at
distance 100 unless equal, every segment check fails and linearization fails,
so every extend returns its nearest node unchanged and every outer iteration
continues. -/
def envC6 : Env where
  inputIdentDist := 1
  resolution := 1
  smoothIter := 0
  qstep := [("a", [1])]
  distance := fun a b => if a = b then 0 else 100
  checkSegment := fun _ _ _ => (false, none)
  mapToSlice := fun _ => none
  solve := fun _ _ => none
  sliceToMap := fun c => some c
  fixedStep := fun _ b _ => b
  interpolate := fun a _ _ => some a
  nearest := fun t _ => (t.headD (dnode, none)).1
  mkRng := fun s => [s]
  extractPath := fun _ _ a b => [a, b]
  sample := fun n _ r => (some n.q, r)

/-- Environment for the seeding counterexample: distances are all 0, so the
first dual extend connects immediately and the returned path is determined by
the nearest nodes, which in turn depend on the start map's iteration order. -/
def envC7 : Env where
  inputIdentDist := 1
  resolution := 1
  smoothIter := 0
  qstep := [("a", [1])]
  distance := fun _ _ => 0
  checkSegment := fun _ _ _ => (false, none)
  mapToSlice := fun _ => none
  solve := fun _ _ => none
  sliceToMap := fun c => some c
  fixedStep := fun _ b _ => b
  interpolate := fun a _ _ => some a
  nearest := fun t q => (((t.find? fun p => decide (p.1.q = q)).getD (t.headD (dnode, none)))).1
  mkRng := fun s => [s]
  extractPath := fun _ _ a b => [a, b]
  sample := fun n _ r => (some n.q, r)

/-- Goal-tree root with configuration `[10]` and id 1. -/
def n10 : Node := ⟨[10], 1⟩

/-- Outer-loop state with one start root `n0` and one goal root `n10`. -/
def st6 : IterState :=
  ⟨[(n0, none)], [(n10, none)], false, [0], [0, 1, 2, 3, 4, 5, 6, 7, 8, 9], 5, []⟩

/-- The state after the first `tryExtend` of `cbirrtIter envC6 0 st6`. -/
def st1c : IterState :=
  ⟨[(n0, none)], [(n10, none)], false, [0], [2, 3, 4, 5, 6, 7, 8, 9], 5, [1, 0]⟩

/-- The state after two full outer iterations of `rrtLoop envC6` from `st6`. -/
def stF6 : IterState := ⟨[(n0, none)], [(n10, none)], false, [10], [8, 9], 5, [1, 0]⟩

/-- A 4-node smoother input path with corners on the two middle nodes. -/
def stC5 : SmState := ⟨[n0, ⟨[1], 1⟩, ⟨[2], 2⟩, ⟨[3], 3⟩], [1, 2], [0, 0, 0, 0], 10⟩

/-- Two-root start map in one storage order. -/
def m7a : Tree := [(⟨[1], 0⟩, none), (⟨[2], 1⟩, none)]

/-- The same two bindings in the other storage order. -/
def m7b : Tree := [(⟨[2], 1⟩, none), (⟨[1], 0⟩, none)]

/-- One-root goal map for the seeding counterexample. -/
def g7 : Tree := [(⟨[9], 2⟩, none)]

/-- Rooted-chain witness: `ChainN tree k n root` states that following `k`
parent pointers from `n` through `tree` ends at the root binding
`(root, none)`. -/
inductive ChainN (tree : Tree) : Nat → Node → Node → Prop where
  | zero (n : Node) : lookupTree tree n = some none → ChainN tree 0 n n
  | succ (k : Nat) (n p root : Node) : lookupTree tree n = some (some p) →
      ChainN tree k p root → ChainN tree (k + 1) n root

/-! Theorems. -/

/-- Helper: an attempt loop whose path is not longer than 3 nodes returns its
state unchanged, whatever its fuel. -/
theorem smoothIterLoop_short (env : Env) (ncp fuel : Nat) (st : SmState)
    (h : ¬ st.steps.length > 3) : smoothIterLoop env ncp fuel st = st := by
  cases fuel with
  | zero => rfl
  | succ f => simp only [smoothIterLoop]; rw [if_neg h]

/-- C10: for an input path with fewer than 4 nodes, and whenever the attempt
budget `min(len^2, SmoothIter)/2` is zero, the Path Smoother performs no
shortcut attempt and returns path, corner flags, PRNG and id state unchanged. -/
theorem smoothPath_small_noop (env : Env) (st : SmState)
    (h : st.steps.length < 4 ∨ min (st.steps.length * st.steps.length) env.smoothIter / 2 = 0) :
    smoothPath env st = st := by
  rcases h with h | h
  · have h3 : ¬ st.steps.length > 3 := by omega
    unfold smoothPath
    rw [smoothIterLoop_short env 2 _ st h3, smoothIterLoop_short env 1 _ st h3]
  · unfold smoothPath
    rw [h]
    rfl

/-- C10 witness: a 3-node path through `smoothPath` with a positive budget. -/
theorem smoothPath_small_noop_w :
    smoothPath envC6 ⟨[n0, ⟨[1], 1⟩, ⟨[2], 2⟩], [], [0, 1], 7⟩ =
      ⟨[n0, ⟨[1], 1⟩, ⟨[2], 2⟩], [], [0, 1], 7⟩ :=
  smoothPath_small_noop envC6 ⟨[n0, ⟨[1], 1⟩, ⟨[2], 2⟩], [], [0, 1], 7⟩ (Or.inl (by decide))

/-- Helper: one unfolding of the extend loop when the goal-reached branch fires. -/
theorem extendLoop_succ_close (env : Env) (fuel : Nat) (rng : Rng) (qs : Qstep) (db : Bool)
    (tree : Tree) (oldNear near : Node) (target : Config) (nid : Nat)
    (h : env.distance near.q target < env.inputIdentDist) :
    extendLoop env (fuel + 1) rng qs db tree oldNear near target nid = (near, tree, rng, nid) := by
  simp only [extendLoop]
  rw [if_pos h]

/-- C9: a Constrained Extend call whose initial distance to the target is
already below `InputIdentDist` emits `near` on its first iteration and leaves
the tree (and the PRNG and id state) completely unchanged. -/
theorem constrainedExtend_close_noop (env : Env) (rng : Rng) (tree : Tree) (near : Node)
    (target : Config) (nid : Nat)
    (h : env.distance near.q target < env.inputIdentDist) :
    constrainedExtend env rng tree near target nid = (near, tree, rng, nid) := by
  unfold constrainedExtend
  rw [show maxExtendIter = 4999 + 1 from rfl]
  exact extendLoop_succ_close env 4999 rng env.qstep false tree near near target nid h

/-- C9 witness: extending from `[0]` toward `[0]` at distance 0 under `envC6`. -/
theorem constrainedExtend_close_noop_w :
    constrainedExtend envC6 [3, 4] [(n0, none)] n0 [0] 9 = (n0, [(n0, none)], [3, 4], 9) :=
  constrainedExtend_close_noop envC6 [3, 4] [(n0, none)] n0 [0] 9 (by norm_num [envC6, n0])

/-- C8 counterexample: a frame with a zero-width DOF limit (min = max = 0)
yields the qstep entry 0, so not every entry of `getFrameSteps` is positive. -/
theorem getFrameSteps_not_all_pos :
    ¬ ∀ pr ∈ getFrameSteps ⟨[⟨"j", [⟨some 0, some 0⟩]⟩]⟩ (3/200), ∀ x ∈ pr.2, 0 < x := by
  intro h
  have hv : getFrameSteps ⟨[⟨"j", [⟨some 0, some 0⟩]⟩]⟩ (3/200) = [("j", [0])] := by
    norm_num [getFrameSteps]
  have h0 := h ("j", [0]) (by rw [hv]; exact List.mem_singleton_self _) 0
    (List.mem_singleton_self _)
  exact lt_irrefl 0 h0

/-- C8 as amended: every qstep entry equals `|u - l| * percentTotalMovement`
with infinite limits clamped to plus or minus 999; all entries are nonnegative
when the percentage is positive, and an entry is positive whenever in addition
its clamped limits differ. -/
theorem getFrameSteps_entries (lfs : LFS) (pct : ℚ) (hp : 0 < pct) :
    (∀ pr ∈ getFrameSteps lfs pct, ∀ x ∈ pr.2, 0 ≤ x) ∧
    (∀ f ∈ lfs.frames,
      (f.name, f.dof.map fun lim => |lim.max.getD 999 - lim.min.getD (-999)| * pct)
        ∈ getFrameSteps lfs pct) ∧
    (∀ f ∈ lfs.frames, ∀ lim ∈ f.dof,
      lim.max.getD 999 ≠ lim.min.getD (-999) →
        0 < |lim.max.getD 999 - lim.min.getD (-999)| * pct) := by
  refine ⟨?_, ?_, ?_⟩
  · intro pr hpr x hx
    simp only [getFrameSteps, List.mem_map] at hpr
    obtain ⟨f, _, rfl⟩ := hpr
    simp only [List.mem_map] at hx
    obtain ⟨lim, _, rfl⟩ := hx
    exact mul_nonneg (abs_nonneg _) hp.le
  · intro f hf
    simp only [getFrameSteps, List.mem_map]
    exact ⟨f, hf, rfl⟩
  · intro f _ lim _ hne
    exact mul_pos (abs_pos.mpr (sub_ne_zero.mpr hne)) hp

/-- C8 witness: a frame with one bounded and one half-infinite DOF. -/
theorem getFrameSteps_entries_w :
    (∀ pr ∈ getFrameSteps ⟨[⟨"j", [⟨some 0, some 4⟩, ⟨none, some 4⟩]⟩]⟩ (3/200),
      ∀ x ∈ pr.2, 0 ≤ x) ∧
    (∀ f ∈ (⟨[⟨"j", [⟨some 0, some 4⟩, ⟨none, some 4⟩]⟩]⟩ : LFS).frames,
      (f.name, f.dof.map fun lim => |lim.max.getD 999 - lim.min.getD (-999)| * (3/200))
        ∈ getFrameSteps ⟨[⟨"j", [⟨some 0, some 4⟩, ⟨none, some 4⟩]⟩]⟩ (3/200)) ∧
    (∀ f ∈ (⟨[⟨"j", [⟨some 0, some 4⟩, ⟨none, some 4⟩]⟩]⟩ : LFS).frames, ∀ lim ∈ f.dof,
      lim.max.getD 999 ≠ lim.min.getD (-999) →
        0 < |lim.max.getD 999 - lim.min.getD (-999)| * (3/200)) :=
  getFrameSteps_entries ⟨[⟨"j", [⟨some 0, some 4⟩, ⟨none, some 4⟩]⟩]⟩ (3/200) (by norm_num)

/-- C1: evaluation showing that `constrainedExtend` can insert an edge whose
segment from the parent fails `CheckSegmentAndStateValidityFS`: under `envC1`,
`constrainNear` re-projects at the failing sub-segment `([2], [4])` and
returns `[4]`, validated only from `[2]` and not from the parent `[0]`, yet
the edge `(⟨[4], 1⟩ → n0)` is inserted. -/
theorem constrainedExtend_unchecked_edge :
    ((⟨[4], 1⟩ : Node), some n0) ∈ (constrainedExtend envC1 [1, 2, 3] [(n0, none)] n0 [10] 1).2.1 ∧
    ((⟨[4], 1⟩ : Node), some n0) ∉ ([(n0, none)] : Tree) ∧
    (envC1.checkSegment n0.q [4] envC1.resolution).1 = false := by
  refine ⟨?_, by norm_num [n0], rfl⟩
  have hv : (constrainedExtend envC1 [1, 2, 3] [(n0, none)] n0 [10] 1).2.1 =
      [(⟨[4], 1⟩, some n0), (n0, none)] := rfl
  rw [hv]
  exact List.mem_cons_self _ _

/-- C4: evaluation of the stuck-rescue.  Under `envC4` the projection is stuck
at the seed, the rescue doubles the local qstep copy, and the doubled step
`[8]` would be accepted and not stuck — but the call computes its next step
with `algOpts.qstep` again (source line 296), repeats `[5]`, and gives up,
returning `oldNear` with the tree unchanged. -/
theorem constrainedExtend_double_unused :
    constrainedExtend envC4 [1, 2, 3] [(n0, none)] n0 [10] 1 = (n0, [(n0, none)], [3], 1) ∧
    envC4.fixedStep [0] [10] envC4.qstep = [5] ∧
    doubleQ envC4.qstep = [("a", [2])] ∧
    envC4.fixedStep [0] [10] [("a", [2])] = [8] ∧
    (envC4.checkSegment [0] [8] envC4.resolution).1 = true ∧
    ¬ envC4.distance [0] [8] < envC4.inputIdentDist ^ 3 := by
  refine ⟨rfl, rfl, by norm_num [doubleQ, envC4], rfl, rfl, by norm_num [envC4]⟩

/-- C3 counterexample: when the segment check of the IK solution fails at a
position whose end is within `InputIdentDist` of the target, `constrainNear`
does not return "none": under `envC3` the next loop iteration redraws and
succeeds, returning `[9]`. -/
theorem constrainNear_nearFail_not_none :
    (envC3.checkSegment [0] [5] envC3.resolution).1 = false ∧
    envC3.mapToSlice [5] = some [5] ∧
    envC3.solve [5] (rngInt [1, 2, 3]).1 = some [7] ∧
    envC3.sliceToMap [7] = some [7] ∧
    envC3.checkSegment [0] [7] envC3.resolution = (false, some ([3], [8])) ∧
    ¬ envC3.distance [5] [8] > envC3.inputIdentDist ∧
    constrainNear envC3 maxNearIter [1, 2, 3] [0] [5] = (some [9], [3]) := by
  refine ⟨rfl, rfl, rfl, rfl, rfl, by norm_num [envC3], rfl⟩

/-- C3 as amended: in an iteration whose IK solution fails the segment check
with a failing position, the procedure recurses with `seedInputs :=
failpos.start`, `target := failpos.end` when the end is farther than
`InputIdentDist` from the target, and otherwise retries the next iteration
with `seedInputs` and `target` unchanged (and fresh IK randomness) — it does
not return "none" there. -/
theorem constrainNear_failpos_step (env : Env) (fuel : Nat) (rng : Rng)
    (seedInputs target : Config) (ls sol sm : List ℚ) (fp : Config × Config)
    (h1 : (env.checkSegment seedInputs target env.resolution).1 = false)
    (h2 : env.mapToSlice target = some ls)
    (h3 : env.solve ls (rngInt rng).1 = some sol)
    (h4 : env.sliceToMap sol = some sm)
    (h5 : env.checkSegment seedInputs sm env.resolution = (false, some fp)) :
    constrainNear env (fuel + 1) rng seedInputs target =
      if env.distance target fp.2 > env.inputIdentDist then
        constrainNear env fuel (rngInt rng).2 fp.1 fp.2
      else
        constrainNear env fuel (rngInt rng).2 seedInputs target := by
  simp only [constrainNear, h1, h2, h3, h4, h5]
  simp

/-- C3 witness: the amended step under `envC3` at its concrete first iteration. -/
theorem constrainNear_failpos_step_w :
    constrainNear envC3 (19 + 1) [1, 2, 3] [0] [5] =
      if envC3.distance [5] [8] > envC3.inputIdentDist then
        constrainNear envC3 19 (rngInt [1, 2, 3]).2 [3] [8]
      else
        constrainNear envC3 19 (rngInt [1, 2, 3]).2 [0] [5] :=
  constrainNear_failpos_step envC3 19 [1, 2, 3] [0] [5] [5] [7] [7] ([3], [8])
    (by decide) (by decide) (by decide) (by decide) (by decide)

/-- C2: in every outer-loop iteration, when the first dual extend leaves the
reached nodes within `InputIdentDist` the path is extracted and returned as
the solution; when it leaves them farther apart and the halfway interpolation
succeeds, `tryExtend` runs exactly once more toward that interpolation with
the distance recomputed; and the connection check returns the extracted path
as the solution whenever the (possibly recomputed) distance is at most
`InputIdentDist`. -/
theorem cbirrtIter_second_extend_connect (env : Env) (i : Nat) (st : IterState)
    (r1 r2 : Node) (st1 : IterState)
    (hext : tryExtend env st st.target = (r1, r2, st1)) :
    (env.distance r1.q r2.q ≤ env.inputIdentDist →
      cbirrtIter env i st = .solved (env.extractPath st1.startMap st1.goalMap r1 r2) st1) ∧
    (∀ tc, env.distance r1.q r2.q > env.inputIdentDist →
      env.interpolate r1.q r2.q (1/2) = some tc →
      cbirrtIter env i st =
        connectOrContinue env i (tryExtend env st1 tc).2.2 (tryExtend env st1 tc).1
          (tryExtend env st1 tc).2.1
          (env.distance (tryExtend env st1 tc).1.q (tryExtend env st1 tc).2.1.q)) ∧
    (∀ st2 a b δ, δ ≤ env.inputIdentDist →
      connectOrContinue env i st2 a b δ =
        .solved (env.extractPath st2.startMap st2.goalMap a b) st2) := by
  refine ⟨?_, ?_, ?_⟩
  · intro hle
    simp only [cbirrtIter, hext]
    rw [if_neg (not_lt.mpr hle)]
    simp only [connectOrContinue]
    rw [if_pos hle]
  · intro tc hgt hi
    simp only [cbirrtIter, hext, hi]
    rw [if_pos hgt]
  · intro st2 a b δ hle
    simp only [connectOrContinue]
    rw [if_pos hle]

/-- C2 witness: under `envC6` the first extend reaches nodes at distance 100,
so the second extend runs; and a connection check at distance 0 solves. -/
theorem cbirrtIter_second_extend_connect_w :
    (cbirrtIter envC6 0 st6 =
      connectOrContinue envC6 0 (tryExtend envC6 st1c [0]).2.2 (tryExtend envC6 st1c [0]).1
        (tryExtend envC6 st1c [0]).2.1
        (envC6.distance (tryExtend envC6 st1c [0]).1.q (tryExtend envC6 st1c [0]).2.1.q)) ∧
    connectOrContinue envC6 0 st1c n0 n10 0 =
      .solved (envC6.extractPath st1c.startMap st1c.goalMap n0 n10) st1c := by
  refine ⟨?_, ?_⟩
  · exact (cbirrtIter_second_extend_connect envC6 0 st6 n0 n10 st1c rfl).2.1 [0]
      (by norm_num [envC6, n0, n10]) rfl
  · exact (cbirrtIter_second_extend_connect envC6 0 st6 n0 n10 st1c rfl).2.2 st1c n0 n10 0
      (by norm_num [envC6])

/-- Helper: the extend loop only prepends to its tree. -/
theorem extendLoop_grows (env : Env) :
    ∀ fuel rng qs db tree oldNear near target nid,
      ∃ l, (extendLoop env fuel rng qs db tree oldNear near target nid).2.1 = l ++ tree := by
  intro fuel
  induction fuel with
  | zero =>
    intro rng qs db tree oldNear near target nid
    exact ⟨[], rfl⟩
  | succ f ih =>
    intro rng qs db tree oldNear near target nid
    simp only [extendLoop]
    split
    · exact ⟨[], rfl⟩
    · split
      · exact ⟨[], rfl⟩
      · split
        · next x p rng2 heq =>
          split
          · split
            · exact ⟨[], rfl⟩
            · exact ih _ _ _ _ _ _ _ _
          · obtain ⟨l, hl⟩ := ih rng2 (if db then env.qstep else qs) false
              ((⟨p, nid⟩, some near) :: tree) near ⟨p, nid⟩ target (nid + 1)
            exact ⟨l ++ [(⟨p, nid⟩, some near)], by rw [hl]; simp⟩
        · exact ⟨[], rfl⟩

/-- Helper: `constrainedExtend` only prepends to its tree. -/
theorem constrainedExtend_grows (env : Env) (rng : Rng) (tree : Tree) (near : Node)
    (target : Config) (nid : Nat) :
    ∃ l, (constrainedExtend env rng tree near target nid).2.1 = l ++ tree :=
  extendLoop_grows env maxExtendIter rng env.qstep false tree near near target nid

/-- Helper: `tryExtend` only prepends to both trees. -/
theorem tryExtend_grows (env : Env) (st : IterState) (target : Config) :
    (∃ l, (tryExtend env st target).2.2.startMap = l ++ st.startMap) ∧
    (∃ l, (tryExtend env st target).2.2.goalMap = l ++ st.goalMap) := by
  unfold tryExtend
  cases hs : st.swapped
  · simp only [hs, Bool.false_eq_true, if_false]
    exact ⟨constrainedExtend_grows env _ _ _ _ _, constrainedExtend_grows env _ _ _ _ _⟩
  · simp only [hs, if_true]
    exact ⟨constrainedExtend_grows env _ _ _ _ _, constrainedExtend_grows env _ _ _ _ _⟩

/-- Helper: a `.next` outcome of the connection check keeps both maps. -/
theorem connectOrContinue_next_maps (env : Env) (i : Nat) (st : IterState) (r1 r2 : Node)
    (delta : ℚ) (st2 : IterState) (h : connectOrContinue env i st r1 r2 delta = .next st2) :
    st2.startMap = st.startMap ∧ st2.goalMap = st.goalMap := by
  unfold connectOrContinue at h
  split at h
  · cases h
  · split at h
    · cases h
    · injection h with h2
      subst h2
      exact ⟨rfl, rfl⟩

/-- Helper: a continuing outer iteration only prepends to both maps. -/
theorem cbirrtIter_next_grows (env : Env) (i : Nat) (st st2 : IterState)
    (h : cbirrtIter env i st = .next st2) :
    (∃ l, st2.startMap = l ++ st.startMap) ∧ (∃ l, st2.goalMap = l ++ st.goalMap) := by
  simp only [cbirrtIter] at h
  split at h
  · split at h
    · cases h
    · next tc hi =>
      obtain ⟨hs, hg⟩ := connectOrContinue_next_maps _ _ _ _ _ _ _ h
      obtain ⟨⟨l1, h1⟩, ⟨m1, g1⟩⟩ := tryExtend_grows env st st.target
      obtain ⟨⟨l2, h2⟩, ⟨m2, g2⟩⟩ := tryExtend_grows env (tryExtend env st st.target).2.2 tc
      exact ⟨⟨l2 ++ l1, by rw [hs, h2, h1, List.append_assoc]⟩,
             ⟨m2 ++ m1, by rw [hg, g2, g1, List.append_assoc]⟩⟩
  · obtain ⟨hs, hg⟩ := connectOrContinue_next_maps _ _ _ _ _ _ _ h
    obtain ⟨⟨l1, h1⟩, ⟨m1, g1⟩⟩ := tryExtend_grows env st st.target
    exact ⟨⟨l1, by rw [hs, h1]⟩, ⟨m1, by rw [hg, g1]⟩⟩

/-- C6: when every one of the remaining `PlanIter` iterations continues (the
trees never connect and no error occurs), the outer loop returns the
`PlannerFailed` error, and the `rrtSolution` carrying it also carries the
final (non-empty, given non-empty input trees) start and goal trees. -/
theorem rrtLoop_exhaust_plannerFailed (env : Env) :
    ∀ fuel i st stF, runsToEnd env i fuel st = some stF →
      st.startMap ≠ [] → st.goalMap ≠ [] →
      rrtLoop env i fuel st = ⟨none, some .plannerFailed, stF.startMap, stF.goalMap⟩ ∧
      stF.startMap ≠ [] ∧ stF.goalMap ≠ [] := by
  intro fuel
  induction fuel with
  | zero =>
    intro i st stF h hs hg
    simp only [runsToEnd, Option.some.injEq] at h
    subst h
    exact ⟨rfl, hs, hg⟩
  | succ f ih =>
    intro i st stF h hs hg
    simp only [runsToEnd] at h
    split at h
    · next st2 heq =>
      obtain ⟨⟨l1, h1⟩, ⟨l2, h2⟩⟩ := cbirrtIter_next_grows env i st st2 heq
      have hs2 : st2.startMap ≠ [] := by
        rw [h1]; intro hc
        exact hs (List.append_eq_nil.mp hc).2
      have hg2 : st2.goalMap ≠ [] := by
        rw [h2]; intro hc
        exact hg (List.append_eq_nil.mp hc).2
      obtain ⟨hmain, hf1, hf2⟩ := ih (i + 1) st2 stF h hs2 hg2
      refine ⟨?_, hf1, hf2⟩
      simp only [rrtLoop, heq]
      exact hmain
    · cases h

/-- C6 witness: two never-connecting iterations under `envC6` exhaust the
budget and return `PlannerFailed` with the (non-empty) trees. -/
theorem rrtLoop_exhaust_plannerFailed_w :
    rrtLoop envC6 0 2 st6 = ⟨none, some .plannerFailed, stF6.startMap, stF6.goalMap⟩ ∧
    stF6.startMap ≠ [] ∧ stF6.goalMap ≠ [] :=
  rrtLoop_exhaust_plannerFailed envC6 2 0 st6 stF6 rfl (by simp [st6]) (by simp [st6])

/-- C7 counterexample: with the same master PRNG stream, options, distances
and constraint handler, permuting the storage (iteration) order of the same
two-root start map changes the returned path: the planner's seed-node pick
(part_000 line 116) takes the first root in map order. -/
theorem runner_map_order_dependent :
    (rrtBackgroundRunner envC7 1 m7a g7 ⟨[9], 2⟩ [0, 1, 2, 3, 4] 10 []).steps ≠
      (rrtBackgroundRunner envC7 1 m7b g7 ⟨[9], 2⟩ [0, 1, 2, 3, 4] 10 []).steps ∧
    List.Perm m7a m7b := by
  constructor
  · have h1 : (rrtBackgroundRunner envC7 1 m7a g7 ⟨[9], 2⟩ [0, 1, 2, 3, 4] 10 []).steps =
        some [⟨[1], 0⟩, ⟨[9], 2⟩] := rfl
    have h2 : (rrtBackgroundRunner envC7 1 m7b g7 ⟨[9], 2⟩ [0, 1, 2, 3, 4] 10 []).steps =
        some [⟨[2], 1⟩, ⟨[9], 2⟩] := rfl
    rw [h1, h2]
    decide
  · exact List.Perm.swap _ _ _

/-- C7 as amended: each `tryExtend` draws its two child seeds from the master
PRNG in fixed order before the extends run, the master PRNG advances by
exactly those two draws, and the reached nodes and both trees depend on the
master stream only through the two drawn values — but reruns are byte-identical
only when the map iteration orders also coincide (see the counterexample). -/
theorem tryExtend_two_draws (env : Env) (st : IterState) (target : Config) (a b : Nat)
    (r r2 : Rng) :
    (tryExtend env { st with rng := a :: b :: r } target).2.2.rng = r ∧
    (tryExtend env { st with rng := a :: b :: r } target).1 =
      (tryExtend env { st with rng := a :: b :: r2 } target).1 ∧
    (tryExtend env { st with rng := a :: b :: r } target).2.1 =
      (tryExtend env { st with rng := a :: b :: r2 } target).2.1 ∧
    (tryExtend env { st with rng := a :: b :: r } target).2.2.startMap =
      (tryExtend env { st with rng := a :: b :: r2 } target).2.2.startMap ∧
    (tryExtend env { st with rng := a :: b :: r } target).2.2.goalMap =
      (tryExtend env { st with rng := a :: b :: r2 } target).2.2.goalMap :=
  ⟨rfl, rfl, rfl, rfl, rfl⟩

/-- Helper: setting a corner flag makes it read true. -/
theorem getC_addC_self (c : CSet) (n : Nat) : getC (addC c n) n = true := by
  unfold getC addC
  split
  · assumption
  · simp [List.contains_cons]

/-- Helper: setting one corner flag keeps another set flag set. -/
theorem getC_addC_mono (c : CSet) (n m : Nat) (h : getC c m = true) :
    getC (addC c n) m = true := by
  unfold getC at h ⊢
  unfold addC
  split
  · exact h
  · simp [List.contains_cons]
    exact Or.inr (List.mem_of_elem_eq_true h)

/-- Helper: setting one corner flag does not change a different flag. -/
theorem getC_addC_ne (c : CSet) (n m : Nat) (h : m ≠ n) :
    getC (addC c n) m = getC c m := by
  unfold getC addC
  split
  · rfl
  · simp [List.contains_cons, h]

/-- Helper: clearing a corner flag makes it read false. -/
theorem getC_eraseC_self (c : CSet) (n : Nat) : getC (eraseC c n) n = false := by
  unfold getC eraseC
  by_contra hb
  rw [Bool.not_eq_false] at hb
  have hm := List.mem_of_elem_eq_true hb
  rw [List.mem_filter] at hm
  simp at hm

/-- Helper: clearing a flag keeps a cleared flag cleared. -/
theorem getC_eraseC_mono (c : CSet) (k n : Nat) (h : getC c k = false) :
    getC (eraseC c n) k = false := by
  unfold getC at h ⊢
  unfold eraseC
  by_contra hb
  rw [Bool.not_eq_false] at hb
  have hm := List.mem_filter.mp (List.mem_of_elem_eq_true hb)
  have := List.elem_eq_true_of_mem hm.1
  rw [show List.elem k c = List.contains c k from rfl, h] at this
  cases this

/-- Helper: clearing a list of flags keeps a cleared flag cleared. -/
theorem getC_foldl_preserve (hits : List Node) :
    ∀ (c : CSet) (k : Nat), getC c k = false →
      getC (hits.foldl (fun c n => eraseC c n.nid) c) k = false := by
  induction hits with
  | nil => intro c k h; exact h
  | cons m rest ih =>
    intro c k h
    simp only [List.foldl_cons]
    exact ih _ k (getC_eraseC_mono c k m.nid h)

/-- Helper: after clearing the flags of every node in a list, each of their
flags reads false. -/
theorem getC_foldl_erase (hits : List Node) :
    ∀ (c : CSet) (n : Node), n ∈ hits →
      getC (hits.foldl (fun c m => eraseC c m.nid) c) n.nid = false := by
  induction hits with
  | nil => intro c n h; cases h
  | cons m rest ih =>
    intro c n h
    simp only [List.foldl_cons]
    rcases List.mem_cons.mp h with rfl | h2
    · exact getC_foldl_preserve rest _ _ (getC_eraseC_self c n.nid)
    · exact ih _ n h2

/-- Helper: a parent chain with positive fuel starts at its argument node. -/
theorem parentChain_cons (tree : Tree) (fuel : Nat) (n : Node) :
    ∃ rest, parentChain tree (fuel + 1) n = n :: rest := by
  simp only [parentChain]
  split
  · exact ⟨_, rfl⟩
  · exact ⟨[], rfl⟩

/-- Helper: looking up the key just prepended returns its binding. -/
theorem lookupTree_cons_self (tree : Tree) (c : Node) (op : Option Node) :
    lookupTree ((c, op) :: tree) c = some op := by
  unfold lookupTree
  rw [List.find?_cons]
  simp

/-- Helper: prepending a different key does not change a lookup. -/
theorem lookupTree_cons_ne (tree : Tree) (c n : Node) (op : Option Node) (h : n ≠ c) :
    lookupTree ((c, op) :: tree) n = lookupTree tree n := by
  unfold lookupTree
  rw [List.find?_cons]
  simp [Ne.symm h]

/-- Helper: a node with a successful lookup is a key of the tree, so its id is
below any bound on the tree's key ids. -/
theorem lookupTree_key_nid_lt (tree : Tree) (n : Node) (op : Option Node) (m : Nat)
    (hf : ∀ e ∈ tree, e.1.nid < m) (h : lookupTree tree n = some op) : n.nid < m := by
  unfold lookupTree at h
  obtain ⟨pr, hfind, hmap⟩ := Option.map_eq_some'.mp h
  have hmem := List.mem_of_find?_eq_some hfind
  have hpred := List.find?_some hfind
  simp only [decide_eq_true_eq] at hpred
  rw [← hpred]
  exact hf pr hmem

/-- Helper: prepending a binding with a fresh key preserves every rooted chain. -/
theorem ChainN_prepend (tree : Tree) (c : Node) (op : Option Node)
    (hfresh : ∀ e ∈ tree, e.1.nid < c.nid) :
    ∀ k n root, ChainN tree k n root → ChainN ((c, op) :: tree) k n root := by
  intro k n root h
  induction h with
  | zero m hm =>
    have hne : m ≠ c := by
      intro hqe
      have := lookupTree_key_nid_lt tree m none c.nid hfresh hm
      rw [hqe] at this
      omega
    exact ChainN.zero m (by rw [lookupTree_cons_ne tree c m op hne]; exact hm)
  | succ k m p root hm _ ih =>
    have hne : m ≠ c := by
      intro hqe
      have := lookupTree_key_nid_lt tree m (some p) c.nid hfresh hm
      rw [hqe] at this
      omega
    exact ChainN.succ k m p root (by rw [lookupTree_cons_ne tree c m op hne]; exact hm) ih

/-- Helper: inserting a fresh node with a chained parent extends that chain. -/
theorem ChainN_insert (tree : Tree) (c p root : Node) (k : Nat)
    (hfresh : ∀ e ∈ tree, e.1.nid < c.nid)
    (h : ChainN tree k p root) :
    ChainN ((c, some p) :: tree) (k + 1) c root :=
  ChainN.succ k c p root (lookupTree_cons_self tree c (some p))
    (ChainN_prepend tree c (some p) hfresh k p root h)

/-- Helper: with fuel above the chain length, the parent-chain walk ends at the
chain's root. -/
theorem parentChain_getLastD (tree : Tree) (k : Nat) (n root : Node)
    (h : ChainN tree k n root) :
    ∀ fuel d, k < fuel → (parentChain tree fuel n).getLastD d = root := by
  induction h with
  | zero m hm =>
    intro fuel d hf
    cases fuel with
    | zero => omega
    | succ f =>
      simp only [parentChain, hm]
      rw [List.getLastD_cons]
      rfl
  | succ k m p root hm _ ih =>
    intro fuel d hf
    cases fuel with
    | zero => omega
    | succ f =>
      simp only [parentChain, hm]
      rw [List.getLastD_cons]
      exact ih f m (by omega)

/-- Helper: through every exit of the extend loop, the emitted node is chained
to the root through the final tree, provided `oldNear` and `near` start
chained and the tree's key ids are below the fresh id counter. -/
theorem extendLoop_chain_root (env : Env) (root : Node) :
    ∀ fuel rng qs db tree oldNear near target nid,
      (∀ e ∈ tree, e.1.nid < nid) →
      (∃ k, k < tree.length ∧ ChainN tree k oldNear root) →
      (∃ k, k < tree.length ∧ ChainN tree k near root) →
      ∃ k, k < (extendLoop env fuel rng qs db tree oldNear near target nid).2.1.length ∧
        ChainN (extendLoop env fuel rng qs db tree oldNear near target nid).2.1 k
          (extendLoop env fuel rng qs db tree oldNear near target nid).1 root := by
  intro fuel
  induction fuel with
  | zero =>
    intro rng qs db tree oldNear near target nid _ hold _
    exact hold
  | succ f ih =>
    intro rng qs db tree oldNear near target nid hf hold hnear
    simp only [extendLoop]
    split
    · exact hnear
    · split
      · exact hold
      · split
        · next x p rng2 heq =>
          split
          · split
            · exact hnear
            · exact ih rng2 (doubleQ qs) true tree near near target nid hf hnear hnear
          · obtain ⟨k, hk, hc⟩ := hnear
            have hfresh2 : ∀ e ∈ tree, e.1.nid < (⟨p, nid⟩ : Node).nid := hf
            refine ih rng2 (if db then env.qstep else qs) false
              ((⟨p, nid⟩, some near) :: tree) near ⟨p, nid⟩ target (nid + 1) ?_ ?_ ?_
            · intro e he
              rcases List.mem_cons.mp he with rfl | he2
              · simp
              · exact Nat.lt_succ_of_lt (hf e he2)
            · exact ⟨k, by simp only [List.length_cons]; omega,
                ChainN_prepend tree ⟨p, nid⟩ (some near) hfresh2 k near root hc⟩
            · exact ⟨k + 1, by simp only [List.length_cons]; omega,
                ChainN_insert tree ⟨p, nid⟩ near root k hfresh2 hc⟩
        · exact hnear

/-- Helper: a `constrainedExtend` call on a one-node shortcut tree emits a node
chained to that tree's root through the returned tree. -/
theorem constrainedExtend_chain_root (env : Env) (rng rng2 : Rng) (root reached : Node)
    (target : Config) (nid nid2 : Nat) (tr : Tree)
    (hn : root.nid < nid)
    (he : constrainedExtend env rng [(root, none)] root target nid = (reached, tr, rng2, nid2)) :
    ∃ k, k < tr.length ∧ ChainN tr k reached root := by
  have h := extendLoop_chain_root env root maxExtendIter rng env.qstep false [(root, none)]
    root root target nid ?_ ?_ ?_
  · rw [show extendLoop env maxExtendIter rng env.qstep false [(root, none)] root root target nid
        = constrainedExtend env rng [(root, none)] root target nid from rfl, he] at h
    exact h
  · intro e he2
    rcases List.mem_cons.mp he2 with rfl | he3
    · exact hn
    · cases he3
  · exact ⟨0, by simp, ChainN.zero root (lookupTree_cons_self [] root none)⟩
  · exact ⟨0, by simp, ChainN.zero root (lookupTree_cons_self [] root none)⟩

/-- C5 as amended: in a successful shortcut attempt, with `reached` and the
shortcut tree produced by `constrainedExtend` from the one-node tree rooted at
`jSol = path[j]`, the splice produces
`path[:i] ++ parentChain(reached) ++ path[j+1:]` — the replaced range is
`path[i .. j]` including `path[i]`, whose place is taken by `reached`, the
chain's head, while the chain's last node is `path[j]` itself (the shortcut
tree's root); the corner flags of the two splice endpoints (`reached` and the
chain's last node `path[j]`) are set, and every other traversed corner's flag
is cleared.  The freshness hypothesis renders the referential distinctness of
Go's newly allocated nodes. -/
theorem spliceStep_shape (env : Env) (steps : List Node) (cor : CSet) (i j : Nat)
    (rng rng2 : Rng) (nid nid2 : Nat) (hits : List Node) (jSol reached : Node)
    (tr : Tree) (target : Config)
    (hi : i ≤ steps.length)
    (hj : steps.getD j dnode = jSol)
    (hfresh : jSol.nid < nid)
    (he : constrainedExtend env rng [(jSol, none)] jSol target nid = (reached, tr, rng2, nid2)) :
    (spliceStep steps cor i j reached tr hits).1 =
      steps.take i ++ parentChain tr (tr.length + 1) reached ++ steps.drop (j + 1) ∧
    (parentChain tr (tr.length + 1) reached).headD dnode = reached ∧
    (parentChain tr (tr.length + 1) reached).getLastD dnode = steps.getD j dnode ∧
    (steps.take i ++ parentChain tr (tr.length + 1) reached).getLastD dnode =
      steps.getD j dnode ∧
    getC (spliceStep steps cor i j reached tr hits).2 reached.nid = true ∧
    getC (spliceStep steps cor i j reached tr hits).2 (steps.getD j dnode).nid = true ∧
    (∀ hc ∈ hits, hc.nid ≠ reached.nid → hc.nid ≠ (steps.getD j dnode).nid →
      getC (spliceStep steps cor i j reached tr hits).2 hc.nid = false) := by
  rw [hj]
  obtain ⟨k, hk, hchainN⟩ :=
    constrainedExtend_chain_root env rng rng2 jSol reached target nid nid2 tr hfresh he
  obtain ⟨rest, hchain⟩ := parentChain_cons tr tr.length reached
  have hlast : (parentChain tr (tr.length + 1) reached).getLastD dnode = jSol :=
    parentChain_getLastD tr k reached jSol hchainN (tr.length + 1) dnode (by omega)
  have hlen : (steps.take i).length = i := by
    rw [List.length_take]; omega
  have hgd : ((steps.take i ++ parentChain tr (tr.length + 1) reached).getD i dnode)
      = reached := by
    rw [List.getD_append_right _ _ _ _ (le_of_eq hlen), hlen, Nat.sub_self, hchain]
    rfl
  have hprelast : ((steps.take i ++ parentChain tr (tr.length + 1) reached).getLastD dnode)
      = jSol := by
    rw [List.getLastD_eq_getLast?,
      List.getLast?_append_of_ne_nil _ (by rw [hchain]; simp),
      ← List.getLastD_eq_getLast?]
    exact hlast
  refine ⟨?_, ?_, hlast, hprelast, ?_, ?_, ?_⟩
  · simp only [spliceStep, List.append_assoc]
  · rw [hchain]; rfl
  · simp only [spliceStep]
    rw [hgd]
    exact getC_addC_mono _ _ _ (getC_addC_self _ _)
  · simp only [spliceStep]
    rw [hprelast]
    exact getC_addC_self _ _
  · intro hc hmem hne hnej
    simp only [spliceStep]
    rw [hgd, hprelast]
    rw [getC_addC_ne _ _ _ hnej, getC_addC_ne _ _ _ hne]
    exact getC_foldl_erase hits cor hc hmem

/-- C5 amended witness: the splice of the concrete smoother run of the
counterexample, with the shortcut extend returning its root immediately. -/
theorem spliceStep_shape_w :
    (spliceStep stC5.steps [1, 2] 0 3 ⟨[3], 3⟩ [(⟨[3], 3⟩, none)] [⟨[2], 2⟩]).1 =
      stC5.steps.take 0 ++
        parentChain [(⟨[3], 3⟩, none)] (([(⟨[3], 3⟩, none)] : Tree).length + 1) ⟨[3], 3⟩ ++
        stC5.steps.drop 4 ∧
    (parentChain [(⟨[3], 3⟩, none)] (([(⟨[3], 3⟩, none)] : Tree).length + 1) ⟨[3], 3⟩).headD
      dnode = ⟨[3], 3⟩ ∧
    (parentChain [(⟨[3], 3⟩, none)] (([(⟨[3], 3⟩, none)] : Tree).length + 1) ⟨[3], 3⟩).getLastD
      dnode = stC5.steps.getD 3 dnode ∧
    (stC5.steps.take 0 ++
      parentChain [(⟨[3], 3⟩, none)] (([(⟨[3], 3⟩, none)] : Tree).length + 1)
        ⟨[3], 3⟩).getLastD dnode = stC5.steps.getD 3 dnode ∧
    getC (spliceStep stC5.steps [1, 2] 0 3 ⟨[3], 3⟩ [(⟨[3], 3⟩, none)] [⟨[2], 2⟩]).2
      (⟨[3], 3⟩ : Node).nid = true ∧
    getC (spliceStep stC5.steps [1, 2] 0 3 ⟨[3], 3⟩ [(⟨[3], 3⟩, none)] [⟨[2], 2⟩]).2
      (stC5.steps.getD 3 dnode).nid = true ∧
    (∀ hc ∈ ([⟨[2], 2⟩] : List Node), hc.nid ≠ (⟨[3], 3⟩ : Node).nid →
      hc.nid ≠ (stC5.steps.getD 3 dnode).nid →
      getC (spliceStep stC5.steps [1, 2] 0 3 ⟨[3], 3⟩ [(⟨[3], 3⟩, none)] [⟨[2], 2⟩]).2
        hc.nid = false) :=
  spliceStep_shape envC5 stC5.steps [1, 2] 0 3 [0, 0, 0] [0, 0, 0] 10 10 [⟨[2], 2⟩]
    ⟨[3], 3⟩ ⟨[3], 3⟩ [(⟨[3], 3⟩, none)] [0]
    (by norm_num [stC5]) rfl (by norm_num) rfl

/-- C5 counterexample: in a successful shortcut attempt of `smoothPath`, the
node `path[i]` is not kept: the spliced path replaces `path[i .. j]` (not
`path[i+1 .. j]`) with the parent chain, whose head `reached` stands where
`path[i]` was.  Under `envC5` the whole 4-node path collapses to the single
node `path[3]`, and `path[0]` is gone although the splice condition
`d(path[i], reached) < InputIdentDist` held. -/
theorem smoothPath_drops_path_i :
    (smoothPath envC5 stC5).steps = [⟨[3], 3⟩] ∧
    stC5.steps.headD dnode = n0 ∧
    envC5.distance n0.q ([3] : Config) < envC5.inputIdentDist ∧
    n0 ∉ (smoothPath envC5 stC5).steps ∧
    (smoothPath envC5 stC5).steps ≠ [n0, ⟨[3], 3⟩] := by
  have hv : (smoothPath envC5 stC5).steps = [(⟨[3], 3⟩ : Node)] := rfl
  refine ⟨hv, rfl, by norm_num [envC5], ?_, ?_⟩
  · rw [hv]; decide
  · rw [hv]; decide

end ArmPlan
